import Mathlib

/-!
Shallow embedding of the jakso framework's request-lifecycle and
service-instantiation engine (src/application.ts, src/action.ts,
src/service.ts, src/service-factory.ts) and proofs about it.

JavaScript values are modelled by `JsValue`, thrown errors by `JsError`,
promises that may reject by `Except JsError`, and the observable side
effects of one `Action.run` (service starts/stops, log calls, validator
invocations, handler-phase method calls, the response write, the
before/after-stop hooks) by a trace of `Event`s.  Methods the framework
leaves at their default implementations (`respond`, `log`,
`beforeStopServices`, `afterStopServices`, `handleError`) are embedded
as written in src/action.ts; the subclass-overridable handler phase
(`parseInput`, `beforeHandle`, `handle`, `afterHandle`), the per-request
service behaviours and the compiled validators' outcomes are kept
abstract in an `ActionBeh` record so theorems quantify over them.
-/

/-- A JavaScript runtime value, as far as the framework inspects values:
`obj` carries its fields together with whether the object has a custom
`toJSON` property (the only property `isPlainDto` looks at). -/
inductive JsValue where
  | null : JsValue
  | bool : Bool → JsValue
  | num : Int → JsValue
  | str : String → JsValue
  | arr : List JsValue → JsValue
  | obj : List (String × JsValue) → Bool → JsValue

/-- A thrown JavaScript error.  The four framework error classes
(`NotFoundError`, `UnauthorizedError`, `ForbiddenError`, `ConflictError`)
live in src/errors/, which is not included in the sources; modelled from
the spec: per §7 they form a flat taxonomy of disjoint `BaseError`
subclasses, so they are disjoint variants here.  `error` is a plain
`Error` with its message, `typeError` a `TypeError` (e.g. reading a
property of `null`). -/
inductive JsError where
  | notFoundError : JsError
  | unauthorizedError : JsError
  | forbiddenError : JsError
  | conflictError : JsError
  | error : String → JsError
  | typeError : String → JsError
deriving DecidableEq

/-- JavaScript truthiness of a `JsValue`, used by the guard
`if (output && !isPlainDto(output))` in `Action.run`. -/
def truthy : JsValue → Bool
  | .null => false
  | .bool b => b
  | .num n => n != 0
  | .str s => s != ""
  | .arr _ => true
  | .obj _ _ => true

/-- src/action.ts `isPlainDto`: arrays recurse through `every` (left to
right, stopping at the first non-plain element), other values of typeof
object are plain iff `obj.toJSON === undefined`, primitives are plain.
Since `typeof null === 'object'` in JavaScript, a `null` reached by the
check dereferences `null.toJSON` and throws a `TypeError`. -/
def isPlainDto : JsValue → Except JsError Bool
  | .arr [] => .ok true
  | .arr (x :: xs) =>
    match isPlainDto x with
    | .error e => .error e
    | .ok false => .ok false
    | .ok true => isPlainDto (.arr xs)
  | .null => .error (.typeError "Cannot read property toJSON of null")
  | .obj _ hasToJSON => .ok (!hasToJSON)
  | .bool _ => .ok true
  | .num _ => .ok true
  | .str _ => .ok true

/-- An observable effect of one request's `Action.run`.  `respond`'s
first argument records which branch of `handleResult` wrote the
response: `true` for the overridable `respond` method (2xx results),
`false` for the direct `ctx.status`/`ctx.body` assignment. -/
inductive Event where
  | serviceStart : String → Event
  | serviceStop : String → Event
  | logCall : String → Option JsError → Event
  | validateBody : Event
  | validateParams : Event
  | validateQuery : Event
  | parseInputCall : Event
  | beforeHandleCall : JsValue → Event
  | handleCall : JsValue → Event
  | afterHandleCall : JsValue → JsValue → Event
  | respond : Bool → Nat → JsValue → Event
  | beforeStopServicesCall : Event
  | afterStopServicesCall : Event

/-- True on the `serviceStart`/`serviceStop` events. -/
def Event.isServiceEvent : Event → Bool
  | .serviceStart _ => true
  | .serviceStop _ => true
  | _ => false

/-- True on the events of the handler phase: the two `parseInput` calls,
`beforeHandle`, `handle` and `afterHandle`. -/
def Event.isHandlerPhaseEvent : Event → Bool
  | .parseInputCall => true
  | .beforeHandleCall _ => true
  | .handleCall _ => true
  | .afterHandleCall _ _ => true
  | _ => false

/-- True on the three validator-invocation events. -/
def Event.isValidatorEvent : Event → Bool
  | .validateBody => true
  | .validateParams => true
  | .validateQuery => true
  | _ => false

/-- True exactly on `serviceStart n`. -/
def Event.isStartOf (n : String) : Event → Bool
  | .serviceStart m => m == n
  | _ => false

/-- True exactly on `serviceStop n`. -/
def Event.isStopOf (n : String) : Event → Bool
  | .serviceStop m => m == n
  | _ => false

/-- True exactly on `parseInputCall`. -/
def Event.isParseInputCall : Event → Bool
  | .parseInputCall => true
  | _ => false

/-- src/action.ts `Result`: the terminal output of request handling. -/
structure Result where
  status : Nat
  body : JsValue

/-- The behaviour of one service instance of the request's services map:
its key in the map, and whether its (subclass-overridable) `start` and
`stop` resolve (`none`) or reject with an error. -/
structure ServiceBeh where
  name : String
  startResult : Option JsError
  stopResult : Option JsError

/-- Outcomes of the compiled validators of one `Action` subtype on the
current request, one per `Schemas` slot.  `none`: no schema declared, so
no validator was created; `some none`: validator present and the value
passes; `some (some errs)`: validator present and the value fails with
the structured Ajv error list `errs`.  The validator functions
themselves are compiled by the external Ajv engine, an excluded
collaborator, so only their outcomes appear in the model. -/
structure ValidatorsCfg where
  body : Option (Option JsValue)
  params : Option (Option JsValue)
  query : Option (Option JsValue)

/-- The behaviour of one `Action` instance on one request: the services
map created for the request, the validator outcomes, and the
subclass-overridable handler-phase methods.  `parseInput` takes the
index of the call (`Action.run` calls it twice), modelling an override
with per-call nondeterminism; the other methods return promises that
may reject. -/
structure ActionBeh where
  services : List ServiceBeh
  validators : ValidatorsCfg
  parseInput : Nat → JsValue
  beforeHandle : JsValue → Except JsError JsValue
  handle : JsValue → Except JsError JsValue
  afterHandle : JsValue → JsValue → Except JsError JsValue

/-- src/application.ts `startServiceInstances`: `forEachService` awaits
`service.start()` sequentially in map order, so a rejection aborts the
loop after the failing start. -/
def Application.startServiceInstances : List ServiceBeh → List Event × Except JsError Unit
  | [] => ([], .ok ())
  | s :: rest =>
    match s.startResult with
    | some e => ([.serviceStart s.name], .error e)
    | none =>
      let (es, r) := Application.startServiceInstances rest
      (.serviceStart s.name :: es, r)

/-- src/application.ts `stopServiceInstances`: `forEachService` awaits
`service.stop()` sequentially in map order, so a rejection aborts the
loop after the failing stop. -/
def Application.stopServiceInstances : List ServiceBeh → List Event × Except JsError Unit
  | [] => ([], .ok ())
  | s :: rest =>
    match s.stopResult with
    | some e => ([.serviceStop s.name], .error e)
    | none =>
      let (es, r) := Application.stopServiceInstances rest
      (.serviceStop s.name :: es, r)

/-- src/action.ts `ValidatorBase.validate`: applied to the outcome of
the compiled Ajv validator on the request's value, returns `null` on
success and a 400 `Result` carrying `this.validator.errors` on
failure. -/
def runValidator : Option JsValue → Option Result
  | none => none
  | some errs => some ⟨400, .obj [("error", .str "Validation"), ("errors", errs)] false⟩

/-- src/action.ts `Action.validate`: starts from `result = null`, runs
the body validator if present, then the params validator if the result
is still `null`, then the query validator if the result is still
`null`.  Emits one event per validator actually invoked. -/
def Action.validate (v : ValidatorsCfg) : List Event × Option Result :=
  let (e1, r1) :=
    match v.body with
    | none => (([] : List Event), (none : Option Result))
    | some outcome => ([Event.validateBody], runValidator outcome)
  let (e2, r2) :=
    match r1, v.params with
    | none, some outcome => (e1 ++ [Event.validateParams], runValidator outcome)
    | _, _ => (e1, r1)
  match r2, v.query with
  | none, some outcome => (e2 ++ [Event.validateQuery], runValidator outcome)
  | _, _ => (e2, r2)

/-- src/action.ts `Action.handleError`: the `instanceof` chain over the
four framework error classes; any other error is logged through
`this.log('error', { error })` and mapped to 500 Internal.  The 500
body is a constant, so the underlying error never reaches the
response. -/
def Action.handleError : JsError → List Event × Result
  | .notFoundError => ([], ⟨404, .obj [("error", .str "NotFound")] false⟩)
  | .unauthorizedError => ([], ⟨401, .obj [("error", .str "Unauthorized")] false⟩)
  | .forbiddenError => ([], ⟨403, .obj [("error", .str "Forbidden")] false⟩)
  | .conflictError => ([], ⟨409, .obj [("error", .str "Conflict")] false⟩)
  | e => ([.logCall "error" (some e)], ⟨500, .obj [("error", .str "Internal")] false⟩)

/-- src/action.ts `Action.handleResult`: 2xx results go through the
overridable `respond` method, all others set `ctx.status`/`ctx.body`
directly; either way the written status and body are the `Result`'s. -/
def Action.handleResult (r : Result) : List Event :=
  if 200 ≤ r.status ∧ r.status < 300 then [.respond true r.status r.body]
  else [.respond false r.status r.body]

/-- The part of `Action.run`'s try block after `startServiceInstances`
succeeded: log 'request started', validate (returning the validation
`Result` from the early `return`), then
`let input = this.parseInput(ctx)` (first call, result discarded),
`input = await this.beforeHandle(this.parseInput(ctx))` (second call),
`handle`, `afterHandle`, and the plain-DTO guard
`if (output && !isPlainDto(output)) throw new Error(...)`, ending with
`result = { status: 200, body: output }`. -/
def Action.tryAfterStart (b : ActionBeh) : List Event × Except JsError Result :=
  let logEv := [Event.logCall "request started" none]
  let (ve, vr) := Action.validate b.validators
  match vr with
  | some result => (logEv ++ ve, .ok result)
  | none =>
    let i1 := b.parseInput 1
    let pre := logEv ++ ve ++ [Event.parseInputCall, Event.parseInputCall, Event.beforeHandleCall i1]
    match b.beforeHandle i1 with
    | .error e => (pre, .error e)
    | .ok input =>
      let pre2 := pre ++ [Event.handleCall input]
      match b.handle input with
      | .error e => (pre2, .error e)
      | .ok out1 =>
        let pre3 := pre2 ++ [Event.afterHandleCall input out1]
        match b.afterHandle input out1 with
        | .error e => (pre3, .error e)
        | .ok output =>
          if truthy output then
            match isPlainDto output with
            | .error e => (pre3, .error e)
            | .ok false => (pre3, .error (.error "always return plain objects (DTOs)"))
            | .ok true => (pre3, .ok ⟨200, output⟩)
          else (pre3, .ok ⟨200, output⟩)

/-- The try/catch of `Action.run`: the try block (service starts plus
`tryAfterStart`), with any rejection mapped through `handleError` to
the `result` the finally block will write. -/
def Action.tryCatch (b : ActionBeh) : List Event × Result :=
  let (se, sr) := Application.startServiceInstances b.services
  match sr with
  | .error e =>
    let (he, r) := Action.handleError e
    (se ++ he, r)
  | .ok _ =>
    let (te, tr) := Action.tryAfterStart b
    match tr with
    | .ok r => (se ++ te, r)
    | .error e =>
      let (he, r) := Action.handleError e
      (se ++ te ++ he, r)

/-- src/action.ts `Action.run`: try/catch as in `tryCatch`, then the
finally block: `handleResult` writes the response, 'request ended' is
logged, `beforeStopServices` runs, the service instances are stopped
(a stop rejection aborts the finally block, so `afterStopServices` and
the resolution of `run` are skipped and `run` rejects), then
`afterStopServices` runs.  The returned `Except` is the fate of the
promise `run` returns. -/
def Action.run (b : ActionBeh) : List Event × Except JsError Unit :=
  let (te, result) := Action.tryCatch b
  let pre := te ++ Action.handleResult result ++ [Event.logCall "request ended" none, Event.beforeStopServicesCall]
  let (ste, sr) := Application.stopServiceInstances b.services
  match sr with
  | .error e => (pre ++ ste, .error e)
  | .ok _ => (pre ++ ste ++ [Event.afterStopServicesCall], .ok ())

/-- One entry of the map returned by `createServiceFactories`: its key
and whether its value is an instance of `ServiceFactory` (the only
property `typeCheckServiceFactories` inspects, via `instanceof`). -/
structure FactoryEntry where
  key : String
  isServiceFactoryInstance : Bool

/-- The message of the error thrown by the type-check callback in
src/application.ts.  The template literal interpolates the identifier
`name`, but the callback binds the map key as `_`, so `name` resolves
to an outer binding and the message is one constant, independent of
the offending key. -/
def typeCheckFailureMessage : String := " is not an instance of ServiceFactory"

/-- The promise built by the `forEachServiceFactory` call inside
`typeCheckServiceFactories`: awaits the callback sequentially over the
entries, rejecting at the first value that is not a `ServiceFactory`
instance. -/
def forEachFactoryTypeCheck : List FactoryEntry → Except String Unit
  | [] => .ok ()
  | e :: rest =>
    if e.isServiceFactoryInstance then forEachFactoryTypeCheck rest
    else .error typeCheckFailureMessage

/-- src/application.ts `typeCheckServiceFactories`: it invokes
`forEachServiceFactory` but does NOT await the returned promise, so a
rejection is discarded and the method itself always resolves. -/
def Application.typeCheckServiceFactories (fs : List FactoryEntry) : Except String Unit :=
  let _discarded := forEachFactoryTypeCheck fs
  .ok ()

/-- src/application.ts `configure`, restricted to the factories map (the
subsequent `registerRoutes`/`createKoa` steps touch only the router and
koa, not the factories): store the created factories map, then await
`typeCheckServiceFactories`. -/
def Application.configure (fs : List FactoryEntry) : Except String Unit :=
  Application.typeCheckServiceFactories fs

/-- The listening socket, counting how many times `server.close` has
been invoked on it. -/
structure NetServer where
  closeCalls : Nat
deriving DecidableEq

/-- The server-lifecycle part of an `Application`: the `private
server?: Server` field, absent until `start()` assigns it. -/
structure AppLifecycleState where
  server : Option NetServer
deriving DecidableEq

/-- src/application.ts `stopServer`: `new Promise(resolve =>
server.close(resolve))`.  `server.close` invokes its callback whether
the close succeeded or the server was already closed (in the latter
case the callback receives an error, which here is the `resolve` of
the wrapping promise), so the promise always resolves. -/
def Application.stopServer (srv : NetServer) : NetServer × Except JsError Unit :=
  ({ closeCalls := srv.closeCalls + 1 }, .ok ())

/-- src/application.ts `start`, restricted to the server field:
`this.server = await this.startServer(this.koa)` stores the freshly
listening server. -/
def Application.start (_s : AppLifecycleState) : AppLifecycleState :=
  { server := some { closeCalls := 0 } }

/-- src/application.ts `stop`: `if (this.server) await
this.stopServer(this.server)` — note `this.server` is never cleared —
then `stopServiceFactories` (factory `stop`s, no-ops by default). -/
def Application.stop (s : AppLifecycleState) : AppLifecycleState × Except JsError Unit :=
  match s.server with
  | some srv =>
    let (srv2, r) := Application.stopServer srv
    ({ server := some srv2 }, r)
  | none => (s, .ok ())

/-- The type keyword of a JSON schema, as far as the claims exercise
it. -/
inductive SchemaTy where
  | integer : SchemaTy
  | boolean : SchemaTy
  | string : SchemaTy
deriving DecidableEq

/-- The Ajv constructor options the validator classes pass in
src/action.ts. -/
structure AjvOptions where
  allErrors : Bool
  coerceTypes : Bool
  format : String

/-- src/action.ts `Validator.createAjv`:
`new Ajv({ allErrors: true, format: 'full' })` — `coerceTypes` left at
its default `false`. -/
def Validator.ajvOptions : AjvOptions :=
  { allErrors := true, coerceTypes := false, format := "full" }

/-- src/action.ts `CoercingValidator.createAjv`:
`new Ajv({ allErrors: true, coerceTypes: true, format: 'full' })`. -/
def CoercingValidator.ajvOptions : AjvOptions :=
  { allErrors := true, coerceTypes := true, format := "full" }

/-- `BodyValidator extends Validator`: non-coercing options. -/
def BodyValidator.ajvOptions : AjvOptions := Validator.ajvOptions

/-- `ParamsValidator extends CoercingValidator`: coercing options. -/
def ParamsValidator.ajvOptions : AjvOptions := CoercingValidator.ajvOptions

/-- `QueryValidator extends CoercingValidator`: coercing options. -/
def QueryValidator.ajvOptions : AjvOptions := CoercingValidator.ajvOptions

/-- True when the string is the decimal notation of an integer
(optional leading minus, then digits): the numeric-looking strings Ajv
coerces to a declared `integer`. -/
def isIntegerString (s : String) : Bool :=
  let core := if s.startsWith "-" then s.drop 1 else s
  core.length > 0 && core.all Char.isDigit

/-- Modelled from the spec: the JSON-Schema engine (Ajv) is an excluded
external collaborator (§1), so its type-keyword check is embedded from
its documented semantics, which §4.4 restates: without `coerceTypes` a
value satisfies a declared type only if it already has it; with
`coerceTypes: true` a numeric-looking string additionally satisfies
`integer` and the strings `"true"`/`"false"` satisfy `boolean`. -/
def ajvTypeCheck (o : AjvOptions) (t : SchemaTy) (v : JsValue) : Bool :=
  match t, v with
  | .integer, .num _ => true
  | .boolean, .bool _ => true
  | .string, .str _ => true
  | .integer, .str s => o.coerceTypes && isIntegerString s
  | .boolean, .str s => o.coerceTypes && (s == "true" || s == "false")
  | _, _ => false

/-- A concrete `ActionBeh` fixture for instantiating theorems at a
specific request: the given services map and validator outcomes, the
handler-phase hooks at their default implementations from src/action.ts
(`beforeHandle` the identity, `afterHandle` returning the output
unchanged, `parseInput` ignoring the context), and a `handle` returning
the given result. -/
def mkBeh (svs : List ServiceBeh) (v : ValidatorsCfg) (hres : Except JsError JsValue) : ActionBeh :=
  { services := svs, validators := v, parseInput := fun _ => .null,
    beforeHandle := fun x => .ok x, handle := fun _ => hres,
    afterHandle := fun _ o => .ok o }

/-! Helper lemmas about the phases of `Action.run`. -/

theorem startServiceInstances_all_ok {svs : List ServiceBeh}
    (h : ∀ s ∈ svs, s.startResult = none) :
    Application.startServiceInstances svs = (svs.map fun s => Event.serviceStart s.name, .ok ()) := by
  induction svs with
  | nil => rfl
  | cons s rest ih =>
    have hs : s.startResult = none := h s (List.mem_cons_self s rest)
    have hrest := ih fun x hx => h x (List.mem_cons_of_mem s hx)
    simp [Application.startServiceInstances, hs, hrest]

theorem stopServiceInstances_all_ok {svs : List ServiceBeh}
    (h : ∀ s ∈ svs, s.stopResult = none) :
    Application.stopServiceInstances svs = (svs.map fun s => Event.serviceStop s.name, .ok ()) := by
  induction svs with
  | nil => rfl
  | cons s rest ih =>
    have hs : s.stopResult = none := h s (List.mem_cons_self s rest)
    have hrest := ih fun x hx => h x (List.mem_cons_of_mem s hx)
    simp [Application.stopServiceInstances, hs, hrest]

theorem validate_events_are_validator (v : ValidatorsCfg) :
    (Action.validate v).1.all Event.isValidatorEvent = true := by
  unfold Action.validate
  rcases v with ⟨b, p, q⟩
  rcases b with _ | ob <;> rcases p with _ | op <;> rcases q with _ | oq <;>
    simp [runValidator] <;>
    first
    | (rcases ob with _ | e1 <;> simp [Event.isValidatorEvent] <;>
        first
        | (rcases op with _ | e2 <;> simp [Event.isValidatorEvent] <;>
            (try rcases oq with _ | e3) <;> simp [Event.isValidatorEvent])
        | ((try rcases oq with _ | e3) <;> simp [Event.isValidatorEvent]))
    | ((try rcases op with _ | e2) <;> simp [Event.isValidatorEvent] <;>
        (try rcases oq with _ | e3) <;> simp [Event.isValidatorEvent])
    | ((try rcases oq with _ | e3) <;> simp [Event.isValidatorEvent])

theorem handleError_events_are_log (e : JsError) :
    ∃ l, (Action.handleError e).1 = l ∧
      (l = [] ∨ l = [Event.logCall "error" (some e)]) := by
  cases e <;> simp [Action.handleError]

theorem countP_eq_zero_of_all_not {l : List Event} {p q : Event → Bool}
    (hall : l.all p = true) (hpq : ∀ x, p x = true → q x = false) :
    l.countP q = 0 := by
  refine List.countP_eq_zero.mpr fun a ha hqa => ?_
  have := hpq a (List.all_eq_true.mp hall a ha)
  simp [this] at hqa

theorem validate_snd_shape (v : ValidatorsCfg) :
    (Action.validate v).2 = none ∨
    ∃ errs, (Action.validate v).2
      = some ⟨400, .obj [("error", .str "Validation"), ("errors", errs)] false⟩ := by
  unfold Action.validate
  rcases v with ⟨b, p, q⟩
  rcases b with _ | (_ | e1) <;> rcases p with _ | (_ | e2) <;> rcases q with _ | (_ | e3) <;>
    simp [runValidator]

theorem isPlainDto_error_shape (v : JsValue) :
    ∀ e, isPlainDto v = Except.error e →
      e = .typeError "Cannot read property toJSON of null" := by
  induction v using isPlainDto.induct <;> simp_all [isPlainDto] <;> try assumption

theorem tryAfterStart_of_validate_some {b : ActionBeh} {ve : List Event} {r : Result}
    (hval : Action.validate b.validators = (ve, some r)) :
    Action.tryAfterStart b = (Event.logCall "request started" none :: ve, .ok r) := by
  unfold Action.tryAfterStart
  rw [hval]
  simp

theorem tryAfterStart_of_validate_none {b : ActionBeh} {ve : List Event}
    (hval : Action.validate b.validators = (ve, none)) :
    ∃ suffix r, Action.tryAfterStart b
        = (Event.logCall "request started" none :: ve
            ++ (Event.parseInputCall :: Event.parseInputCall
                :: Event.beforeHandleCall (b.parseInput 1) :: suffix), r)
      ∧ suffix.all (fun e => !e.isParseInputCall && !e.isServiceEvent && !e.isValidatorEvent) = true
      ∧ (∀ input, b.beforeHandle (b.parseInput 1) = .ok input → Event.handleCall input ∈ suffix) := by
  unfold Action.tryAfterStart
  rw [hval]
  rcases hbh : b.beforeHandle (b.parseInput 1) with e | input
  · refine ⟨[], .error e, by simp [hbh], by simp, ?_⟩
    intro i hi
    simp at hi
  · rcases hh : b.handle input with e | out1
    · refine ⟨[Event.handleCall input], .error e, by simp [hbh, hh], by
        simp [Event.isParseInputCall, Event.isServiceEvent, Event.isValidatorEvent], ?_⟩
      intro i hi
      simp only [Except.ok.injEq] at hi
      subst hi
      simp
    · rcases hah : b.afterHandle input out1 with e | output
      · refine ⟨[Event.handleCall input, Event.afterHandleCall input out1], .error e,
          by simp [hbh, hh, hah], by
          simp [Event.isParseInputCall, Event.isServiceEvent, Event.isValidatorEvent], ?_⟩
        intro i hi
        simp only [Except.ok.injEq] at hi
        subst hi
        simp
      · rcases htr : truthy output with _ | _
        · refine ⟨[Event.handleCall input, Event.afterHandleCall input out1],
            .ok ⟨200, output⟩, by simp [hbh, hh, hah, htr], by
            simp [Event.isParseInputCall, Event.isServiceEvent, Event.isValidatorEvent], ?_⟩
          intro i hi
          simp only [Except.ok.injEq] at hi
          subst hi
          simp
        · rcases hpd : isPlainDto output with e | bl
          · refine ⟨[Event.handleCall input, Event.afterHandleCall input out1],
              .error e, by simp [hbh, hh, hah, htr, hpd], by
              simp [Event.isParseInputCall, Event.isServiceEvent, Event.isValidatorEvent], ?_⟩
            intro i hi
            simp only [Except.ok.injEq] at hi
            subst hi
            simp
          · rcases bl with _ | _
            · refine ⟨[Event.handleCall input, Event.afterHandleCall input out1],
                .error (.error "always return plain objects (DTOs)"),
                by simp [hbh, hh, hah, htr, hpd], by
                simp [Event.isParseInputCall, Event.isServiceEvent, Event.isValidatorEvent], ?_⟩
              intro i hi
              simp only [Except.ok.injEq] at hi
              subst hi
              simp
            · refine ⟨[Event.handleCall input, Event.afterHandleCall input out1],
                .ok ⟨200, output⟩, by simp [hbh, hh, hah, htr, hpd], by
                simp [Event.isParseInputCall, Event.isServiceEvent, Event.isValidatorEvent], ?_⟩
              intro i hi
              simp only [Except.ok.injEq] at hi
              subst hi
              simp

theorem tryAfterStart_events_nonservice (b : ActionBeh) :
    ((Action.tryAfterStart b).1).all (fun e => !e.isServiceEvent) = true := by
  have hv := validate_events_are_validator b.validators
  rcases hval : Action.validate b.validators with ⟨ve, vr⟩
  rw [hval] at hv
  have hve : ve.all (fun e => !e.isServiceEvent) = true := by
    refine List.all_eq_true.mpr fun x hx => ?_
    have := List.all_eq_true.mp hv x hx
    cases x <;> simp_all [Event.isValidatorEvent, Event.isServiceEvent]
  rcases vr with _ | r
  · obtain ⟨suffix, r, heq, hsuf, -⟩ := tryAfterStart_of_validate_none hval
    have hsuf' : suffix.all (fun e => !e.isServiceEvent) = true := by
      refine List.all_eq_true.mpr fun x hx => ?_
      have := List.all_eq_true.mp hsuf x hx
      cases x <;> simp_all [Event.isParseInputCall, Event.isServiceEvent, Event.isValidatorEvent]
    rw [heq]
    simp only [List.cons_append, List.all_cons, List.all_append, Bool.and_eq_true]
    exact ⟨rfl, hve, rfl, rfl, rfl, hsuf'⟩
  · rw [tryAfterStart_of_validate_some hval]
    simp only [List.all_cons, Bool.and_eq_true]
    exact ⟨rfl, hve⟩

theorem handleError_events_nonservice (e : JsError) :
    ((Action.handleError e).1).all (fun x => !x.isServiceEvent) = true := by
  cases e <;> simp [Action.handleError, Event.isServiceEvent]

theorem handleError_events_no_handler (e : JsError) :
    ((Action.handleError e).1).all (fun x => !x.isHandlerPhaseEvent) = true := by
  cases e <;> simp [Action.handleError, Event.isHandlerPhaseEvent]

theorem startServiceInstances_events (svs : List ServiceBeh) :
    ((Application.startServiceInstances svs).1).all Event.isServiceEvent = true := by
  induction svs with
  | nil => rfl
  | cons s rest ih =>
    unfold Application.startServiceInstances
    rcases s.startResult with _ | e
    · simpa [Event.isServiceEvent] using ih
    · simp [Event.isServiceEvent]

theorem stopServiceInstances_events (svs : List ServiceBeh) :
    ((Application.stopServiceInstances svs).1).all Event.isServiceEvent = true := by
  induction svs with
  | nil => rfl
  | cons s rest ih =>
    unfold Application.stopServiceInstances
    rcases s.stopResult with _ | e
    · simpa [Event.isServiceEvent] using ih
    · simp [Event.isServiceEvent]

theorem tryCatch_start_ok_try_ok {b : ActionBeh} {te : List Event} {r : Result}
    (hstart : ∀ s ∈ b.services, s.startResult = none)
    (h : Action.tryAfterStart b = (te, .ok r)) :
    Action.tryCatch b = ((b.services.map fun s => Event.serviceStart s.name) ++ te, r) := by
  unfold Action.tryCatch
  rw [startServiceInstances_all_ok hstart]
  simp [h]

theorem tryCatch_start_ok_try_err {b : ActionBeh} {te : List Event} {e : JsError}
    (hstart : ∀ s ∈ b.services, s.startResult = none)
    (h : Action.tryAfterStart b = (te, .error e)) :
    Action.tryCatch b = ((b.services.map fun s => Event.serviceStart s.name) ++ te
      ++ (Action.handleError e).1, (Action.handleError e).2) := by
  unfold Action.tryCatch
  rw [startServiceInstances_all_ok hstart]
  simp [h]

theorem tryCatch_events_decomp {b : ActionBeh}
    (hstart : ∀ s ∈ b.services, s.startResult = none) :
    ∃ mid, (Action.tryCatch b).1 = (b.services.map fun s => Event.serviceStart s.name) ++ mid
      ∧ mid.all (fun x => !x.isServiceEvent) = true := by
  have hte := tryAfterStart_events_nonservice b
  rcases hta : Action.tryAfterStart b with ⟨te, tr⟩
  rw [hta] at hte
  rcases tr with e | r
  · refine ⟨te ++ (Action.handleError e).1, ?_, ?_⟩
    · rw [tryCatch_start_ok_try_err hstart hta]
      simp
    · simp [List.all_append, hte, handleError_events_nonservice]
  · exact ⟨te, by rw [tryCatch_start_ok_try_ok hstart hta], hte⟩

theorem run_of_stop_ok {b : ActionBeh}
    (hstop : ∀ s ∈ b.services, s.stopResult = none) :
    Action.run b = ((Action.tryCatch b).1 ++ Action.handleResult (Action.tryCatch b).2
      ++ Event.logCall "request ended" none :: Event.beforeStopServicesCall
        :: ((b.services.map fun s => Event.serviceStop s.name) ++ [Event.afterStopServicesCall]),
      .ok ()) := by
  rcases htc : Action.tryCatch b with ⟨te, result⟩
  unfold Action.run
  rw [htc, stopServiceInstances_all_ok hstop]
  simp

theorem run_tail_shape (b : ActionBeh) :
    ∃ tail, (Action.run b).1 = (Action.tryCatch b).1 ++ Action.handleResult (Action.tryCatch b).2
        ++ Event.logCall "request ended" none :: Event.beforeStopServicesCall :: tail
      ∧ tail.all (fun e => e.isServiceEvent || !e.isHandlerPhaseEvent) = true
      ∧ tail.countP Event.isHandlerPhaseEvent = 0
      ∧ tail.countP Event.isParseInputCall = 0 := by
  have hst := stopServiceInstances_events b.services
  rcases htc : Action.tryCatch b with ⟨te, result⟩
  rcases hsi : Application.stopServiceInstances b.services with ⟨ste, sr⟩
  rw [hsi] at hst
  have h1 : ∀ (extra : List Event), extra.all (fun e => !e.isHandlerPhaseEvent) = true →
      (ste ++ extra).countP Event.isHandlerPhaseEvent = 0
      ∧ (ste ++ extra).countP Event.isParseInputCall = 0 := by
    intro extra hextra
    constructor
    · rw [List.countP_append]
      have hz1 : ste.countP Event.isHandlerPhaseEvent = 0 :=
        countP_eq_zero_of_all_not hst fun x hx => by
          cases x <;> simp_all [Event.isServiceEvent, Event.isHandlerPhaseEvent]
      have hz2 : extra.countP Event.isHandlerPhaseEvent = 0 :=
        countP_eq_zero_of_all_not hextra fun x hx => by
          cases x <;> simp_all [Event.isHandlerPhaseEvent]
      omega
    · rw [List.countP_append]
      have hz1 : ste.countP Event.isParseInputCall = 0 :=
        countP_eq_zero_of_all_not hst fun x hx => by
          cases x <;> simp_all [Event.isServiceEvent, Event.isParseInputCall]
      have hz2 : extra.countP Event.isParseInputCall = 0 :=
        countP_eq_zero_of_all_not hextra fun x hx => by
          cases x <;> simp_all [Event.isHandlerPhaseEvent, Event.isParseInputCall]
      omega
  have hall : ∀ (extra : List Event), extra.all (fun e => e.isServiceEvent || !e.isHandlerPhaseEvent) = true →
      (ste ++ extra).all (fun e => e.isServiceEvent || !e.isHandlerPhaseEvent) = true := by
    intro extra hextra
    rw [List.all_append, hextra]
    have : ste.all (fun e => e.isServiceEvent || !e.isHandlerPhaseEvent) = true := by
      refine List.all_eq_true.mpr fun x hx => ?_
      have := List.all_eq_true.mp hst x hx
      simp [this]
    simp [this]
  rcases sr with e | _
  · refine ⟨ste, ?_, by simpa using hall [] rfl,
      by have := (h1 [] rfl).1; simpa using this,
      by have := (h1 [] rfl).2; simpa using this⟩
    unfold Action.run
    rw [htc, hsi]
    simp
  · refine ⟨ste ++ [Event.afterStopServicesCall], ?_,
      hall [Event.afterStopServicesCall] (by simp [Event.isHandlerPhaseEvent]),
      (h1 [Event.afterStopServicesCall] (by simp [Event.isHandlerPhaseEvent])).1,
      (h1 [Event.afterStopServicesCall] (by simp [Event.isHandlerPhaseEvent])).2⟩
    unfold Action.run
    rw [htc, hsi]
    simp

theorem handleResult_2xx {r : Result} (h1 : 200 ≤ r.status) (h2 : r.status < 300) :
    Action.handleResult r = [.respond true r.status r.body] := by
  simp [Action.handleResult, h1, h2]

theorem handleResult_other {r : Result} (h : 300 ≤ r.status ∨ r.status < 200) :
    Action.handleResult r = [.respond false r.status r.body] := by
  rcases h with h | h <;> simp [Action.handleResult] <;> omega

theorem countP_isStartOf_map_start (svs : List ServiceBeh) (n : String) :
    ((svs.map fun s => Event.serviceStart s.name).countP (Event.isStartOf n))
      = (svs.map ServiceBeh.name).count n := by
  simp [List.countP_map, List.count_eq_countP, Function.comp_def, Event.isStartOf]

theorem countP_isStopOf_map_stop (svs : List ServiceBeh) (n : String) :
    ((svs.map fun s => Event.serviceStop s.name).countP (Event.isStopOf n))
      = (svs.map ServiceBeh.name).count n := by
  simp [List.countP_map, List.count_eq_countP, Function.comp_def, Event.isStopOf]

theorem countP_isStartOf_map_stop (svs : List ServiceBeh) (n : String) :
    ((svs.map fun s => Event.serviceStop s.name).countP (Event.isStartOf n)) = 0 := by
  simp [List.countP_map, Function.comp_def, Event.isStartOf]

theorem countP_isStopOf_map_start (svs : List ServiceBeh) (n : String) :
    ((svs.map fun s => Event.serviceStart s.name).countP (Event.isStopOf n)) = 0 := by
  simp [List.countP_map, Function.comp_def, Event.isStopOf]

theorem run_parseInput_first_call_irrelevant (b : ActionBeh) (f : Nat → JsValue)
    (hf : f 1 = b.parseInput 1) :
    Action.run { b with parseInput := f } = Action.run b := by
  unfold Action.run Action.tryCatch Action.tryAfterStart
  dsimp only
  rw [hf]

theorem countP_map_start_eq_zero (svs : List ServiceBeh) {p : Event → Bool}
    (hp : ∀ m, p (Event.serviceStart m) = false) :
    ((svs.map fun s => Event.serviceStart s.name).countP p) = 0 := by
  refine List.countP_eq_zero.mpr fun a ha => ?_
  obtain ⟨s, -, rfl⟩ := List.mem_map.mp ha
  simp [hp]

theorem countP_map_stop_eq_zero (svs : List ServiceBeh) {p : Event → Bool}
    (hp : ∀ m, p (Event.serviceStop m) = false) :
    ((svs.map fun s => Event.serviceStop s.name).countP p) = 0 := by
  refine List.countP_eq_zero.mpr fun a ha => ?_
  obtain ⟨s, -, rfl⟩ := List.mem_map.mp ha
  simp [hp]

theorem handleResult_events_nonservice (r : Result) :
    ((Action.handleResult r).all fun e => !e.isServiceEvent) = true := by
  unfold Action.handleResult
  split <;> simp [Event.isServiceEvent]

theorem handleResult_events_no_handler (r : Result) :
    ((Action.handleResult r).all fun e => !e.isHandlerPhaseEvent) = true := by
  unfold Action.handleResult
  split <;> simp [Event.isHandlerPhaseEvent]

theorem tryAfterStart_success {b : ActionBeh} {ve : List Event} {input out1 output : JsValue}
    (hval : Action.validate b.validators = (ve, none))
    (hbh : b.beforeHandle (b.parseInput 1) = .ok input)
    (hh : b.handle input = .ok out1)
    (hah : b.afterHandle input out1 = .ok output)
    (hok : truthy output = false ∨ isPlainDto output = .ok true) :
    Action.tryAfterStart b
      = (Event.logCall "request started" none :: ve
          ++ [Event.parseInputCall, Event.parseInputCall, Event.beforeHandleCall (b.parseInput 1),
              Event.handleCall input, Event.afterHandleCall input out1],
        .ok ⟨200, output⟩) := by
  unfold Action.tryAfterStart
  rw [hval]
  rcases hok with htr | hplain
  · simp [hbh, hh, hah, htr]
  · cases htr : truthy output <;> simp [hbh, hh, hah, htr, hplain]

theorem run_success_200 {b : ActionBeh} {input out1 output : JsValue}
    (hstart : ∀ s ∈ b.services, s.startResult = none)
    (hv : (Action.validate b.validators).2 = none)
    (hbh : b.beforeHandle (b.parseInput 1) = .ok input)
    (hh : b.handle input = .ok out1)
    (hah : b.afterHandle input out1 = .ok output)
    (hok : truthy output = false ∨ isPlainDto output = .ok true) :
    (Action.tryCatch b).2 = ⟨200, output⟩
    ∧ Event.respond true 200 output ∈ (Action.run b).1 := by
  rcases hval : Action.validate b.validators with ⟨ve, vr⟩
  rw [hval] at hv
  subst hv
  have hta := tryAfterStart_success hval hbh hh hah hok
  have htc := tryCatch_start_ok_try_ok hstart hta
  constructor
  · rw [htc]
  · obtain ⟨tail, htr, -, -, -⟩ := run_tail_shape b
    rw [htr, htc]
    have hhr : Action.handleResult (⟨200, output⟩ : Result)
        = [.respond true 200 output] := by simp [Action.handleResult]
    simp [hhr]

theorem run_nonplain_500 {b : ActionBeh} {input out1 output : JsValue}
    (hstart : ∀ s ∈ b.services, s.startResult = none)
    (hv : (Action.validate b.validators).2 = none)
    (hbh : b.beforeHandle (b.parseInput 1) = .ok input)
    (hh : b.handle input = .ok out1)
    (hah : b.afterHandle input out1 = .ok output)
    (htrthy : truthy output = true)
    (hnp : isPlainDto output ≠ .ok true) :
    (Action.tryCatch b).2 = ⟨500, .obj [("error", .str "Internal")] false⟩
    ∧ Event.respond false 500 (.obj [("error", .str "Internal")] false) ∈ (Action.run b).1 := by
  rcases hval : Action.validate b.validators with ⟨ve, vr⟩
  rw [hval] at hv
  subst hv
  have hta : ∃ e, Action.tryAfterStart b
      = (Event.logCall "request started" none :: ve
          ++ [Event.parseInputCall, Event.parseInputCall, Event.beforeHandleCall (b.parseInput 1),
              Event.handleCall input, Event.afterHandleCall input out1], .error e)
      ∧ (Action.handleError e).2 = ⟨500, .obj [("error", .str "Internal")] false⟩ := by
    rcases hpd : isPlainDto output with e | bl
    · refine ⟨e, ?_, ?_⟩
      · unfold Action.tryAfterStart
        rw [hval]
        simp [hbh, hh, hah, htrthy, hpd]
      · have := isPlainDto_error_shape output e hpd
        subst this
        rfl
    · rcases bl with _ | _
      · refine ⟨.error "always return plain objects (DTOs)", ?_, rfl⟩
        unfold Action.tryAfterStart
        rw [hval]
        simp [hbh, hh, hah, htrthy, hpd]
      · exact absurd hpd hnp
  obtain ⟨e, hta, he⟩ := hta
  have htc := tryCatch_start_ok_try_err hstart hta
  constructor
  · rw [htc]
    exact he
  · obtain ⟨tail, htr, -, -, -⟩ := run_tail_shape b
    rw [htr, htc, he]
    have hhr : Action.handleResult (⟨500, .obj [("error", .str "Internal")] false⟩ : Result)
        = [.respond false 500 (.obj [("error", .str "Internal")] false)] := by
      simp [Action.handleResult]
    simp [hhr]

/-- C1: the claim says a non-`ServiceFactory` value in the factories map
makes `configure()` reject with an error naming the offending key.  The
code evaluated at such a map shows otherwise: `configure` resolves for
every factories map, because `typeCheckServiceFactories` never awaits
the promise `forEachServiceFactory` returns, and the error that promise
does reject with is one constant message for every offending key (the
callback binds the key as `_`; the interpolated `name` is an outer
binding), so it names no key. -/
theorem C1_configure_type_check_is_dead :
    (∀ fs, Application.configure fs = .ok ())
  ∧ (∀ key, forEachFactoryTypeCheck [⟨key, false⟩] = .error typeCheckFailureMessage) := by
  constructor
  · intro fs
    rfl
  · intro key
    rfl

/-- C4: the params and query validators are built with `coerceTypes:
true`, so a numeric-looking string satisfies a declared `integer` and a
boolean-looking string a declared `boolean`; the body validator is
built without coercion, so every string fails a declared `integer`,
numeric-looking or not. -/
theorem C4_coercion_split :
    (∀ s, ajvTypeCheck ParamsValidator.ajvOptions .integer (.str s) = isIntegerString s)
  ∧ (∀ s, ajvTypeCheck QueryValidator.ajvOptions .integer (.str s) = isIntegerString s)
  ∧ (∀ s, ajvTypeCheck ParamsValidator.ajvOptions .boolean (.str s) = (s == "true" || s == "false"))
  ∧ (∀ s, ajvTypeCheck QueryValidator.ajvOptions .boolean (.str s) = (s == "true" || s == "false"))
  ∧ (∀ s, ajvTypeCheck BodyValidator.ajvOptions .integer (.str s) = false) := by
  refine ⟨fun s => ?_, fun s => ?_, fun s => ?_, fun s => ?_, fun s => ?_⟩ <;>
    simp [ajvTypeCheck, ParamsValidator.ajvOptions, QueryValidator.ajvOptions,
      BodyValidator.ajvOptions, CoercingValidator.ajvOptions, Validator.ajvOptions]

/-- C5: `handleError` maps the four framework error classes to exactly
404 NotFound, 401 Unauthorized, 403 Forbidden and 409 Conflict, and any
other error to 500 with the constant body Internal, passing the
underlying error to the log sink; the 500 body is the same constant for
every error, so the underlying error is never in the response body. -/
theorem C5_handleError_taxonomy :
    Action.handleError .notFoundError = ([], ⟨404, .obj [("error", .str "NotFound")] false⟩)
  ∧ Action.handleError .unauthorizedError = ([], ⟨401, .obj [("error", .str "Unauthorized")] false⟩)
  ∧ Action.handleError .forbiddenError = ([], ⟨403, .obj [("error", .str "Forbidden")] false⟩)
  ∧ Action.handleError .conflictError = ([], ⟨409, .obj [("error", .str "Conflict")] false⟩)
  ∧ (∀ m, Action.handleError (.error m)
      = ([.logCall "error" (some (.error m))], ⟨500, .obj [("error", .str "Internal")] false⟩))
  ∧ (∀ m, Action.handleError (.typeError m)
      = ([.logCall "error" (some (.typeError m))], ⟨500, .obj [("error", .str "Internal")] false⟩)) :=
  ⟨rfl, rfl, rfl, rfl, fun _ => rfl, fun _ => rfl⟩

/-- C6 counterexample: after `start()`, the first `stop()` closes the
socket once (`closeCalls = 1`) but leaves `this.server` set, so the
second `stop()` invokes `stopServer` on the already-closed server again
(`closeCalls = 2`) — refuting the claim that the second call does not
attempt to close the already-closed socket a second time. -/
theorem C6_counterexample :
    (Application.stop (Application.start ⟨none⟩)).1.server = some ⟨1⟩
  ∧ (Application.stop (Application.stop (Application.start ⟨none⟩)).1).1.server = some ⟨2⟩ :=
  ⟨rfl, rfl⟩

/-- C6 amended: calling `stop()` any number of times never throws (the
close callback resolves the wrapped promise even for an already-closed
server), and `stop()` with no stored server — `start()` never invoked —
skips the socket close entirely; but each `stop()` on an application
whose `server` field is set does attempt a close, since the field is
never cleared. -/
theorem C6_stop_idempotence_amended :
    (∀ s, (Application.stop s).2 = .ok ())
  ∧ Application.stop ⟨none⟩ = (⟨none⟩, .ok ())
  ∧ (∀ srv, (Application.stop ⟨some srv⟩).1.server = some ⟨srv.closeCalls + 1⟩) := by
  refine ⟨fun s => ?_, rfl, fun srv => rfl⟩
  rcases s with ⟨_ | srv⟩ <;> rfl

/-- C2 counterexample: a request whose first service's `stop()` rejects.
`startServiceInstances` succeeds, yet service "b" is never stopped (the
sequential stop loop aborts at "a"), `afterStopServices` never runs and
`run` itself rejects — refuting the claim that every service's `stop()`
runs exactly once on every exit path whenever the starts succeeded. -/
theorem C2_counterexample :
    (Application.startServiceInstances
      [⟨"a", none, some (.error "stop boom")⟩, ⟨"b", none, none⟩]).2 = .ok ()
  ∧ (Action.run (mkBeh [⟨"a", none, some (.error "stop boom")⟩, ⟨"b", none, none⟩]
      ⟨none, none, none⟩ (.ok .null))).1.countP (Event.isStopOf "b") = 0
  ∧ (Action.run (mkBeh [⟨"a", none, some (.error "stop boom")⟩, ⟨"b", none, none⟩]
      ⟨none, none, none⟩ (.ok .null))).2 = .error (.error "stop boom") :=
  ⟨rfl, rfl, rfl⟩

/-- C2 amended: for every request in which `startServiceInstances`
succeeds and, additionally, every service's `stop()` itself succeeds,
each service in the request's services map is started exactly once and
stopped exactly once, all starts precede `beforeStopServices`, which
precedes all stops, and `afterStopServices` runs last — on every exit
path of the try block (validation failure, a throwing handler phase, a
failing plain-DTO check, or success).  Without the added assumption a
rejecting `stop()` aborts the stop loop, so later services are never
stopped (see the counterexample). -/
theorem C2_service_lifecycle_amended (b : ActionBeh)
    (hstart : ∀ s ∈ b.services, s.startResult = none)
    (hstop : ∀ s ∈ b.services, s.stopResult = none)
    (hnodup : (b.services.map ServiceBeh.name).Nodup) :
    (∃ mid, (Action.run b).1
        = (b.services.map fun s => Event.serviceStart s.name) ++ mid
          ++ Event.beforeStopServicesCall
            :: ((b.services.map fun s => Event.serviceStop s.name) ++ [Event.afterStopServicesCall])
      ∧ mid.all (fun e => !e.isServiceEvent) = true)
    ∧ (∀ n ∈ b.services.map ServiceBeh.name,
        (Action.run b).1.countP (Event.isStartOf n) = 1
        ∧ (Action.run b).1.countP (Event.isStopOf n) = 1)
    ∧ (Action.run b).2 = .ok () := by
  obtain ⟨mid0, hmid0, hmid0ns⟩ := tryCatch_events_decomp hstart
  have hrun := run_of_stop_ok hstop
  have hmidns : (mid0 ++ Action.handleResult (Action.tryCatch b).2
      ++ [Event.logCall "request ended" none]).all (fun e => !e.isServiceEvent) = true := by
    rw [List.all_append, List.all_append]
    simp only [Bool.and_eq_true]
    exact ⟨⟨hmid0ns, handleResult_events_nonservice _⟩, rfl⟩
  have htrace : (Action.run b).1
      = (b.services.map fun s => Event.serviceStart s.name)
        ++ (mid0 ++ Action.handleResult (Action.tryCatch b).2
            ++ [Event.logCall "request ended" none])
        ++ Event.beforeStopServicesCall
          :: ((b.services.map fun s => Event.serviceStop s.name)
              ++ [Event.afterStopServicesCall]) := by
    rw [hrun]
    simp only [hmid0]
    simp [List.append_assoc]
  obtain ⟨mid, htr2, hmidall⟩ :
      ∃ mid, (Action.run b).1
        = (b.services.map fun s => Event.serviceStart s.name) ++ mid
          ++ Event.beforeStopServicesCall
            :: ((b.services.map fun s => Event.serviceStop s.name) ++ [Event.afterStopServicesCall])
        ∧ mid.all (fun e => !e.isServiceEvent) = true :=
    ⟨_, htrace, hmidns⟩
  refine ⟨⟨mid, htr2, hmidall⟩, ?_, ?_⟩
  · intro n hn
    constructor
    · rw [htr2]
      simp only [List.countP_append, List.countP_cons, List.countP_nil]
      rw [countP_isStartOf_map_start, countP_isStartOf_map_stop,
        countP_eq_zero_of_all_not hmidall (fun x hx => by
          cases x <;> simp_all [Event.isServiceEvent, Event.isStartOf]),
        List.count_eq_one_of_mem hnodup hn]
      simp [Event.isStartOf]
    · rw [htr2]
      simp only [List.countP_append, List.countP_cons, List.countP_nil]
      rw [countP_isStopOf_map_start, countP_isStopOf_map_stop,
        countP_eq_zero_of_all_not hmidall (fun x hx => by
          cases x <;> simp_all [Event.isServiceEvent, Event.isStopOf]),
        List.count_eq_one_of_mem hnodup hn]
      simp [Event.isStopOf]
  · rw [hrun]

/-- C2 amended witness: a concrete request over one service "db" with a
trivially succeeding pipeline: "db" is started once, stopped once, and
the run resolves. -/
theorem C2_service_lifecycle_amended_witness :
    (Action.run (mkBeh [⟨"db", none, none⟩] ⟨none, none, none⟩ (.ok .null))).1.countP
      (Event.isStartOf "db") = 1
  ∧ (Action.run (mkBeh [⟨"db", none, none⟩] ⟨none, none, none⟩ (.ok .null))).1.countP
      (Event.isStopOf "db") = 1
  ∧ (Action.run (mkBeh [⟨"db", none, none⟩] ⟨none, none, none⟩ (.ok .null))).2 = .ok () := by
  have h := C2_service_lifecycle_amended
    (mkBeh [⟨"db", none, none⟩] ⟨none, none, none⟩ (.ok .null))
    (by intro s hs; simp [mkBeh] at hs; subst hs; rfl)
    (by intro s hs; simp [mkBeh] at hs; subst hs; rfl)
    (by simp [mkBeh])
  exact ⟨(h.2.1 "db" (by simp [mkBeh])).1, (h.2.1 "db" (by simp [mkBeh])).2, h.2.2⟩

/-- C3: `validate` checks the declared schemas in the fixed order body,
params, query, short-circuiting at the first failing stage (a failing
body skips params and query; params runs only when body is undeclared
or passes; query only when body and params are undeclared or pass);
every failure is a 400 `Result` with body `error: Validation` carrying
the validator's structured error list; a subtype declaring no schemas
validates nothing and returns no error; and in `Action.run` a failing
validation responds with status 400 and that body while none of
`parseInput`, `beforeHandle`, `handle`, `afterHandle` is invoked. -/
theorem C3_validation_order_and_skip :
    (∀ v errs, v.body = some (some errs) →
        Action.validate v = ([Event.validateBody],
          some ⟨400, .obj [("error", .str "Validation"), ("errors", errs)] false⟩))
  ∧ (∀ v errs, v.body = some none → v.params = some (some errs) →
        Action.validate v = ([Event.validateBody, Event.validateParams],
          some ⟨400, .obj [("error", .str "Validation"), ("errors", errs)] false⟩))
  ∧ (∀ v errs, v.body = none → v.params = some (some errs) →
        Action.validate v = ([Event.validateParams],
          some ⟨400, .obj [("error", .str "Validation"), ("errors", errs)] false⟩))
  ∧ (∀ v errs, (v.body = none ∨ v.body = some none) → (v.params = none ∨ v.params = some none) →
        v.query = some (some errs) →
        (Action.validate v).2
          = some ⟨400, .obj [("error", .str "Validation"), ("errors", errs)] false⟩)
  ∧ Action.validate ⟨none, none, none⟩ = ([], none)
  ∧ (∀ b r, (∀ s ∈ b.services, s.startResult = none) →
        (Action.validate b.validators).2 = some r →
        (∃ errs, r = ⟨400, .obj [("error", .str "Validation"), ("errors", errs)] false⟩)
        ∧ (Action.run b).1.countP Event.isHandlerPhaseEvent = 0
        ∧ Event.respond false 400 r.body ∈ (Action.run b).1) := by
  refine ⟨?_, ?_, ?_, ?_, rfl, ?_⟩
  · rintro ⟨vb, vp, vq⟩ errs h
    subst h
    rcases vp with _ | op <;> rcases vq with _ | oq <;> simp [Action.validate, runValidator]
  · rintro ⟨vb, vp, vq⟩ errs h1 h2
    subst h1
    subst h2
    rcases vq with _ | oq <;> simp [Action.validate, runValidator]
  · rintro ⟨vb, vp, vq⟩ errs h1 h2
    subst h1
    subst h2
    rcases vq with _ | oq <;> simp [Action.validate, runValidator]
  · rintro ⟨vb, vp, vq⟩ errs h1 h2 h3
    subst h3
    rcases h1 with h1 | h1 <;> rcases h2 with h2 | h2 <;> subst h1 <;> subst h2 <;>
      simp [Action.validate, runValidator]
  · intro b r hstart hv
    have hshape := validate_snd_shape b.validators
    rcases hshape with hnone | ⟨errs, heq⟩
    · rw [hnone] at hv
      exact absurd hv (by simp)
    have hr : r = ⟨400, .obj [("error", .str "Validation"), ("errors", errs)] false⟩ := by
      rw [heq] at hv
      exact (Option.some.injEq _ _ ▸ hv.symm)
    rcases hval : Action.validate b.validators with ⟨ve, vr⟩
    have hvr : vr = some r := by rw [hval] at hv; exact hv
    subst hvr
    have hta := tryAfterStart_of_validate_some hval
    have htc := tryCatch_start_ok_try_ok hstart hta
    have hvev := validate_events_are_validator b.validators
    rw [hval] at hvev
    have hhr : Action.handleResult r = [.respond false 400 r.body] := by
      rw [hr]
      simp [Action.handleResult]
    obtain ⟨tail, htr, -, htail0, -⟩ := run_tail_shape b
    refine ⟨⟨errs, hr⟩, ?_, ?_⟩
    · rw [htr, htc, hhr]
      simp only [List.countP_append, List.countP_cons, List.countP_nil]
      rw [countP_map_start_eq_zero b.services (fun m => rfl)]
      rw [countP_eq_zero_of_all_not hvev (fun x hx => by
        cases x <;> simp_all [Event.isValidatorEvent, Event.isHandlerPhaseEvent])]
      simp [Event.isHandlerPhaseEvent, htail0]
    · rw [htr, htc, hhr]
      simp

/-- C3 witness: concrete validator configurations exercising each
stage — a failing body stops the pipeline at `validateBody`; a failing
params runs after a passing or absent body; a failing query after
passing or absent body and params; and a concrete request whose body
validator fails responds 400 Validation without invoking any handler
phase. -/
theorem C3_validation_order_and_skip_witness :
    Action.validate ⟨some (some (.str "E")), some none, some none⟩
      = ([Event.validateBody],
        some ⟨400, .obj [("error", .str "Validation"), ("errors", .str "E")] false⟩)
  ∧ Action.validate ⟨some none, some (some (.str "E")), none⟩
      = ([Event.validateBody, Event.validateParams],
        some ⟨400, .obj [("error", .str "Validation"), ("errors", .str "E")] false⟩)
  ∧ Action.validate ⟨none, some (some (.str "E")), some none⟩
      = ([Event.validateParams],
        some ⟨400, .obj [("error", .str "Validation"), ("errors", .str "E")] false⟩)
  ∧ (Action.validate ⟨some none, none, some (some (.str "E"))⟩).2
      = some ⟨400, .obj [("error", .str "Validation"), ("errors", .str "E")] false⟩
  ∧ ((Action.run (mkBeh [] ⟨some (some (.str "E")), none, none⟩ (.ok .null))).1.countP
        Event.isHandlerPhaseEvent = 0
      ∧ Event.respond false 400 (.obj [("error", .str "Validation"), ("errors", .str "E")] false)
        ∈ (Action.run (mkBeh [] ⟨some (some (.str "E")), none, none⟩ (.ok .null))).1) := by
  have h := C3_validation_order_and_skip
  have h6 := h.2.2.2.2.2 (mkBeh [] ⟨some (some (.str "E")), none, none⟩ (.ok .null))
    ⟨400, .obj [("error", .str "Validation"), ("errors", .str "E")] false⟩
    (by intro s hs; simp [mkBeh] at hs) rfl
  exact ⟨h.1 ⟨some (some (.str "E")), some none, some none⟩ (.str "E") rfl,
    h.2.1 ⟨some none, some (some (.str "E")), none⟩ (.str "E") rfl rfl,
    h.2.2.1 ⟨none, some (some (.str "E")), some none⟩ (.str "E") rfl rfl,
    h.2.2.2.1 ⟨some none, none, some (some (.str "E"))⟩ (.str "E") (Or.inr rfl) (Or.inl rfl) rfl,
    h6.2.1, h6.2.2⟩

/-- C7: when validation passes and the pipeline produces a plain data
object unchanged by `afterHandle`, the request's `Result` is status 200
with the output as body, and the response written by `handleResult`
(through the `respond` method, as 200 is in the 2xx range) carries that
status and body verbatim. -/
theorem C7_plain_output_roundtrip (b : ActionBeh) (input out : JsValue)
    (hstart : ∀ s ∈ b.services, s.startResult = none)
    (hv : (Action.validate b.validators).2 = none)
    (hbh : b.beforeHandle (b.parseInput 1) = .ok input)
    (hh : b.handle input = .ok out)
    (hah : b.afterHandle input out = .ok out)
    (hplain : isPlainDto out = .ok true) :
    (Action.tryCatch b).2 = ⟨200, out⟩
    ∧ Event.respond true 200 out ∈ (Action.run b).1 :=
  run_success_200 hstart hv hbh hh hah (Or.inr hplain)

/-- C7 witness: a concrete request whose handler returns the object
with fields id 1 and username "jakso": the result is 200 with exactly
that object as body. -/
theorem C7_plain_output_roundtrip_witness :
    (Action.tryCatch (mkBeh [] ⟨none, none, none⟩
        (.ok (.obj [("id", .num 1), ("username", .str "jakso")] false)))).2
      = ⟨200, .obj [("id", .num 1), ("username", .str "jakso")] false⟩
    ∧ Event.respond true 200 (.obj [("id", .num 1), ("username", .str "jakso")] false)
      ∈ (Action.run (mkBeh [] ⟨none, none, none⟩
          (.ok (.obj [("id", .num 1), ("username", .str "jakso")] false)))).1 := by
  have h := C7_plain_output_roundtrip
    (mkBeh [] ⟨none, none, none⟩
      (.ok (.obj [("id", .num 1), ("username", .str "jakso")] false)))
    .null (.obj [("id", .num 1), ("username", .str "jakso")] false)
    (by intro s hs; simp [mkBeh] at hs) rfl rfl rfl rfl (by simp [isPlainDto])
  exact h

/-- C8: when the pipeline output is truthy and fails the plain-DTO
check — in particular an object carrying a custom `toJSON`, or an array
containing one — `run` raises an internal error and the response is
status 500 with body `error: Internal`. -/
theorem C8_nonplain_output_500 (b : ActionBeh) (input out1 output : JsValue)
    (hstart : ∀ s ∈ b.services, s.startResult = none)
    (hv : (Action.validate b.validators).2 = none)
    (hbh : b.beforeHandle (b.parseInput 1) = .ok input)
    (hh : b.handle input = .ok out1)
    (hah : b.afterHandle input out1 = .ok output)
    (htrthy : truthy output = true)
    (hnp : isPlainDto output ≠ .ok true) :
    (Action.tryCatch b).2 = ⟨500, .obj [("error", .str "Internal")] false⟩
    ∧ Event.respond false 500 (.obj [("error", .str "Internal")] false) ∈ (Action.run b).1
    ∧ (∀ fields, isPlainDto (.obj fields true) = .ok false)
    ∧ (∀ fields, truthy (.obj fields true) = true)
    ∧ (∀ fields xs, isPlainDto (.arr (.obj fields true :: xs)) = .ok false) := by
  obtain ⟨h1, h2⟩ := run_nonplain_500 hstart hv hbh hh hah htrthy hnp
  exact ⟨h1, h2, fun fields => by simp [isPlainDto], fun fields => rfl,
    fun fields xs => by simp [isPlainDto]⟩

/-- C8 witness: a concrete request whose handler returns an object with
a custom `toJSON`: the response is 500 Internal. -/
theorem C8_nonplain_output_500_witness :
    (Action.tryCatch (mkBeh [] ⟨none, none, none⟩ (.ok (.obj [] true)))).2
      = ⟨500, .obj [("error", .str "Internal")] false⟩
    ∧ Event.respond false 500 (.obj [("error", .str "Internal")] false)
      ∈ (Action.run (mkBeh [] ⟨none, none, none⟩ (.ok (.obj [] true)))).1
    ∧ isPlainDto (.obj [] true) = .ok false
    ∧ truthy (.obj [] true) = true
    ∧ isPlainDto (.arr [.obj [] true]) = .ok false := by
  have h := C8_nonplain_output_500 (mkBeh [] ⟨none, none, none⟩ (.ok (.obj [] true)))
    .null (.obj [] true) (.obj [] true)
    (by intro s hs; simp [mkBeh] at hs) rfl rfl rfl rfl rfl (by simp [isPlainDto])
  exact ⟨h.1, h.2.1, h.2.2.1 [], h.2.2.2.1 [], h.2.2.2.2 [] []⟩

/-- C9: once validation has passed, `run` invokes `parseInput` exactly
twice; `beforeHandle` is invoked on the second call's result; when
`beforeHandle` succeeds, `handle` receives its output; and the whole
observable behaviour of `run` is independent of what the first
`parseInput` call returns — its result is discarded. -/
theorem C9_parseInput_invoked_twice (b : ActionBeh)
    (hstart : ∀ s ∈ b.services, s.startResult = none)
    (hv : (Action.validate b.validators).2 = none) :
    (Action.run b).1.countP Event.isParseInputCall = 2
    ∧ Event.beforeHandleCall (b.parseInput 1) ∈ (Action.run b).1
    ∧ (∀ input, b.beforeHandle (b.parseInput 1) = .ok input →
        Event.handleCall input ∈ (Action.run b).1)
    ∧ (∀ f : Nat → JsValue, (∀ n, n ≠ 0 → f n = b.parseInput n) →
        Action.run { b with parseInput := f } = Action.run b) := by
  rcases hval : Action.validate b.validators with ⟨ve, vr⟩
  rw [hval] at hv
  simp only at hv
  subst hv
  obtain ⟨suffix, rr, hta, hsufall, hmem⟩ := tryAfterStart_of_validate_none hval
  have hvev := validate_events_are_validator b.validators
  rw [hval] at hvev
  have htcdecomp : ∃ extra, (Action.tryCatch b).1
      = (b.services.map fun s => Event.serviceStart s.name)
        ++ (Event.logCall "request started" none :: ve
            ++ Event.parseInputCall :: Event.parseInputCall
              :: Event.beforeHandleCall (b.parseInput 1) :: suffix)
        ++ extra
      ∧ extra.all (fun e => !e.isHandlerPhaseEvent) = true := by
    rcases rr with e | r
    · refine ⟨(Action.handleError e).1, ?_, handleError_events_no_handler e⟩
      simp [tryCatch_start_ok_try_err hstart hta, List.append_assoc]
    · refine ⟨[], ?_, rfl⟩
      simp [tryCatch_start_ok_try_ok hstart hta]
  obtain ⟨extra, htce, hextra⟩ := htcdecomp
  obtain ⟨tail, htr, -, -, htailpi⟩ := run_tail_shape b
  refine ⟨?_, ?_, ?_, ?_⟩
  · rw [htr, htce]
    simp only [List.countP_append, List.countP_cons, List.countP_nil]
    rw [countP_map_start_eq_zero b.services (fun m => rfl),
      countP_eq_zero_of_all_not hvev (fun x hx => by
        cases x <;> simp_all [Event.isValidatorEvent, Event.isParseInputCall]),
      countP_eq_zero_of_all_not hsufall (fun x hx => by
        cases x <;> simp_all [Event.isParseInputCall, Event.isServiceEvent, Event.isValidatorEvent]),
      countP_eq_zero_of_all_not hextra (fun x hx => by
        cases x <;> simp_all [Event.isHandlerPhaseEvent, Event.isParseInputCall]),
      countP_eq_zero_of_all_not (handleResult_events_no_handler (Action.tryCatch b).2)
        (fun x hx => by
          cases x <;> simp_all [Event.isHandlerPhaseEvent, Event.isParseInputCall]),
      htailpi]
    simp [Event.isParseInputCall]
  · rw [htr, htce]
    simp
  · intro input hbh
    have hm := hmem input hbh
    rw [htr, htce]
    simp [hm]
  · intro f hf
    exact run_parseInput_first_call_irrelevant b f (hf 1 one_ne_zero)

/-- C9 witness: a concrete request on the no-schema fixture: the trace
holds exactly two `parseInput` calls, `beforeHandle` and `handle` are
reached with the parsed input, and replacing what the first
`parseInput` call returns (index 0) leaves `run`'s behaviour
unchanged. -/
theorem C9_parseInput_invoked_twice_witness :
    (Action.run (mkBeh [] ⟨none, none, none⟩ (.ok .null))).1.countP Event.isParseInputCall = 2
    ∧ Event.beforeHandleCall .null ∈ (Action.run (mkBeh [] ⟨none, none, none⟩ (.ok .null))).1
    ∧ Event.handleCall .null ∈ (Action.run (mkBeh [] ⟨none, none, none⟩ (.ok .null))).1
    ∧ Action.run { mkBeh [] ⟨none, none, none⟩ (.ok .null) with
        parseInput := fun n => if n = 0 then .str "discarded" else .null }
      = Action.run (mkBeh [] ⟨none, none, none⟩ (.ok .null)) := by
  have h := C9_parseInput_invoked_twice (mkBeh [] ⟨none, none, none⟩ (.ok .null))
    (by intro s hs; simp [mkBeh] at hs) rfl
  exact ⟨h.1, h.2.1, h.2.2.1 .null rfl,
    h.2.2.2 (fun n => if n = 0 then .str "discarded" else .null)
      (by intro n hn; simp [hn, mkBeh])⟩

/-- C10 counterexample: the array containing an object with a custom
`toJSON` followed by `null` is an array containing `null`, yet the
plain-DTO check does not raise a `TypeError` on it — `every`
short-circuits at the non-plain first element and the check returns
false — refuting the claim that the check raises a `TypeError` for
every handler output that is an array containing `null`. -/
theorem C10_counterexample :
    isPlainDto (.arr [.obj [] true, .null]) = .ok false
    ∧ isPlainDto (.arr [.obj [] true, .null])
      ≠ .error (.typeError "Cannot read property toJSON of null") := by
  have h : isPlainDto (.arr [.obj [] true, .null]) = .ok false := by simp [isPlainDto]
  exact ⟨h, by rw [h]; simp⟩

/-- C10 amended: `isPlainDto` dereferences `toJSON` on every value of
typeof object with no null check, so for every handler output that is
an array containing `null` all of whose elements before the first
`null` are plain data (so traversal reaches the `null`), the check
raises a `TypeError` and the response is 500 Internal; top-level `null`
output remains acceptable, since the truthiness guard skips the check
and the response is 200 with body `null`. -/
theorem C10_array_null_typeerror_amended (pre rest : List JsValue)
    (hpre : ∀ x ∈ pre, isPlainDto x = .ok true) :
    isPlainDto (.arr (pre ++ .null :: rest))
      = .error (.typeError "Cannot read property toJSON of null")
    ∧ (∀ b input out1, (∀ s ∈ b.services, s.startResult = none) →
        (Action.validate b.validators).2 = none →
        b.beforeHandle (b.parseInput 1) = .ok input →
        b.handle input = .ok out1 →
        b.afterHandle input out1 = .ok (.arr (pre ++ .null :: rest)) →
        (Action.tryCatch b).2 = ⟨500, .obj [("error", .str "Internal")] false⟩
        ∧ Event.respond false 500 (.obj [("error", .str "Internal")] false)
          ∈ (Action.run b).1)
    ∧ (∀ b input out1, (∀ s ∈ b.services, s.startResult = none) →
        (Action.validate b.validators).2 = none →
        b.beforeHandle (b.parseInput 1) = .ok input →
        b.handle input = .ok out1 →
        b.afterHandle input out1 = .ok .null →
        (Action.tryCatch b).2 = ⟨200, JsValue.null⟩
        ∧ Event.respond true 200 JsValue.null ∈ (Action.run b).1) := by
  have harr : isPlainDto (.arr (pre ++ .null :: rest))
      = .error (.typeError "Cannot read property toJSON of null") := by
    induction pre with
    | nil => simp [isPlainDto]
    | cons x xs ih =>
      have hx : isPlainDto x = .ok true := hpre x (List.mem_cons_self x xs)
      have hxs := ih fun y hy => hpre y (List.mem_cons_of_mem x hy)
      rw [List.cons_append]
      rw [show isPlainDto (.arr (x :: (xs ++ .null :: rest)))
          = match isPlainDto x with
            | .error e => .error e
            | .ok false => .ok false
            | .ok true => isPlainDto (.arr (xs ++ .null :: rest)) from by
        simp [isPlainDto]]
      rw [hx]
      exact hxs
  refine ⟨harr, ?_, ?_⟩
  · intro b input out1 hstart hv hbh hh hah
    exact run_nonplain_500 hstart hv hbh hh hah rfl (by rw [harr]; simp)
  · intro b input out1 hstart hv hbh hh hah
    exact run_success_200 hstart hv hbh hh hah (Or.inl rfl)

/-- C10 amended witness: the concrete output `[1, null]` (a plain
number before the `null`) makes the check raise the `TypeError` and the
concrete request returning it responds 500 Internal, while a request
whose output is top-level `null` responds 200 with body `null`. -/
theorem C10_array_null_typeerror_amended_witness :
    isPlainDto (.arr [.num 1, .null])
      = .error (.typeError "Cannot read property toJSON of null")
    ∧ ((Action.tryCatch (mkBeh [] ⟨none, none, none⟩ (.ok (.arr [.num 1, .null])))).2
        = ⟨500, .obj [("error", .str "Internal")] false⟩
      ∧ Event.respond false 500 (.obj [("error", .str "Internal")] false)
        ∈ (Action.run (mkBeh [] ⟨none, none, none⟩ (.ok (.arr [.num 1, .null])))).1)
    ∧ ((Action.tryCatch (mkBeh [] ⟨none, none, none⟩ (.ok .null))).2 = ⟨200, JsValue.null⟩
      ∧ Event.respond true 200 JsValue.null
        ∈ (Action.run (mkBeh [] ⟨none, none, none⟩ (.ok .null))).1) := by
  have h := C10_array_null_typeerror_amended [.num 1] []
    (by intro x hx; simp at hx; subst hx; simp [isPlainDto])
  exact ⟨h.1,
    h.2.1 (mkBeh [] ⟨none, none, none⟩ (.ok (.arr [.num 1, .null]))) .null (.arr [.num 1, .null])
      (by intro s hs; simp [mkBeh] at hs) rfl rfl rfl rfl,
    h.2.2 (mkBeh [] ⟨none, none, none⟩ (.ok .null)) .null .null
      (by intro s hs; simp [mkBeh] at hs) rfl rfl rfl rfl⟩
